import Mathlib

/-
Verification of the `red` line editor (a Rust `ed` clone) against its
natural-language specification.  The Rust sources are shallowly embedded:

  * src/buffer.rs : the `Buffer` structure and its `replace_iter` splice
    primitive (marks table update, `changed` flag);
  * src/parser.rs : the nom-based command-line grammar;
  * src/main.rs   : address resolution (`line_to_index`,
    `extract_addr_range`, `find_regex`) and the command engine
    (`exec_command`).

Rust strings are modelled as `List Char`; `Vec<String>` as `List Line`;
`usize` as `Nat` and `i32` as `Int` with explicit bound checks where the
source performs `try_from` conversions.  `Vec::splice` panics when the
range end exceeds the vector length; that panic is modelled explicitly
(`ExecResult.panic`) via the checked wrapper `replace_checked`.
-/

namespace Red

/-- A text line (Rust `String` as a character sequence). -/
abbrev Line := List Char

/-- `Buffer` from src/buffer.rs.  The field `curline` is read and written
throughout src/main.rs as `s.buffer.curline`; buffer.rs as provided does not
declare it, so it is added here with the natural default `0` used for a
fresh buffer. -/
structure Buffer where
  lines : List Line
  marks : List (Option Nat)
  changed : Bool
  curline : Nat
deriving DecidableEq

/-- `Buffer::new()`. -/
def Buffer.new : Buffer :=
  { lines := [], marks := List.replicate 26 none, changed := false, curline := 0 }

/-- `impl FromIterator<String> for Buffer` (src/buffer.rs): fresh marks,
`changed = false`. -/
def Buffer.fromIter (ls : List Line) : Buffer :=
  { lines := ls, marks := List.replicate 26 none, changed := false, curline := 0 }

/-- `range_after` from src/buffer.rs, specialised to the `Excluded` end
bound of a half-open Rust range `start..stop` (the only shape the callers
build): `item >= stop`. -/
def range_after (stop item : Nat) : Bool :=
  stop ≤ item

/-- `Range::contains` for the half-open range `start..stop`. -/
def range_contains (start stop item : Nat) : Bool :=
  start ≤ item && item < stop

/-- `Buffer::replace_iter` (src/buffer.rs) for a half-open range
`start..stop`: splice the range out of `lines`, replacing it with
`replaceWith`; clear every mark inside the range, shift every mark at or
after `stop` by the net length delta (`diff = old_len - new_len`, an `i64`
in the source; the source's `usize::try_from(..).unwrap()` is `Int.toNat`
here, and never truncates for in-bounds ranges), and set `changed`. -/
def Buffer.replace_iter (b : Buffer) (start stop : Nat) (replaceWith : List Line) : Buffer :=
  let old : Int := b.lines.length
  let lines := b.lines.take start ++ replaceWith ++ b.lines.drop stop
  let diff : Int := old - lines.length
  let marks := b.marks.map (fun mark =>
    match mark with
    | some index =>
      if range_contains start stop index then none
      else if range_after stop index then some ((index : Int) - diff).toNat
      else some index
    | none => none)
  { b with lines := lines, marks := marks, changed := true }

/-- `impl fmt::Display for Buffer` (src/buffer.rs): each line followed by a
newline, concatenated in order via `fold`. -/
def Buffer.toString (b : Buffer) : List Char :=
  b.lines.foldl (fun e l => e ++ l ++ ['\n']) []

/-! ### Parser (src/parser.rs)

The nom combinators used by the source are modelled over `List Char`: a
parser takes the input and either fails (nom `Err::Error`, which `alt` and
`opt` backtrack on; the source never uses `Err::Failure`) or returns the
remaining input together with a value. -/

/-- `Address` from src/parser.rs (`i32` payloads become `Int`; the mark
letter `u8` offset `c - 0x61` becomes `Nat`). -/
inductive Address where
  | Abs (c : Int) : Address
  | Rel (c : Int) : Address
  | Mark (m : Nat) : Address
deriving DecidableEq

/-- `AddressRange` from src/parser.rs. -/
inductive AddressRange where
  | Range (f t : Address) : AddressRange
  | Next (re : Option Line) : AddressRange
  | Prev (re : Option Line) : AddressRange
deriving DecidableEq

/-- `Command` from src/parser.rs.  The `Buffer` payload of
`Append`/`Change`/`Insert` is only ever used for its line list (the parser
creates it empty and `input_to_buffer` pushes lines into it), so it is
modelled as `List Line`. -/
inductive Command where
  | Append (b : List Line) : Command
  | Change (b : List Line) : Command
  | CurLine : Command
  | Delete : Command
  | Edit (f : Option Line) : Command
  | Exec (c : Line) : Command
  | File (f : Line) : Command
  | Help : Command
  | Insert (b : List Line) : Command
  | Mark (m : Nat) : Command
  | Prompt : Command
  | Read (f : Option Line) : Command
  | Write (f : Option Line) : Command
  | Quit : Command
deriving DecidableEq

/-- `PrintFlag` from src/parser.rs. -/
inductive PrintFlag where
  | None : PrintFlag
  | Print : PrintFlag
  | Number : PrintFlag
deriving DecidableEq

/-- `print_flag_set` from src/parser.rs. -/
def print_flag_set (fs flag : PrintFlag) : PrintFlag :=
  if fs = PrintFlag.None ∨ (fs = PrintFlag.Print ∧ flag = PrintFlag.Number) then flag
  else fs

/-- Result of a nom parser: error, or remaining input and value. -/
abbrev PResult (α : Type) := Except Unit (List Char × α)

/-- nom `anychar`. -/
def anychar : List Char → PResult Char
  | [] => .error ()
  | c :: rest => .ok (rest, c)

/-- nom `char(c)`. -/
def pchar (c : Char) : List Char → PResult Char
  | [] => .error ()
  | x :: rest => if x = c then .ok (rest, x) else .error ()

/-- nom `none_of(bad)`. -/
def noneOf (bad : List Char) : List Char → PResult Char
  | [] => .error ()
  | x :: rest => if x ∈ bad then .error () else .ok (rest, x)

/-- nom `opt(p)`: never fails, backtracking on error. -/
def popt (p : List Char → PResult α) (i : List Char) : List Char × Option α :=
  match p i with
  | .ok (rest, v) => (rest, some v)
  | .error _ => (i, none)

/-- nom `many0(p)`, with fuel to justify termination.  Every parser it is
applied to in the source consumes at least one character on success; if `p`
ever succeeded without consuming, this model stops (nom errors in that
case, which no input here can reach). -/
def many0Aux (p : List Char → PResult α) : Nat → List Char → List Char × List α
  | 0, i => (i, [])
  | fuel + 1, i =>
    match p i with
    | .error _ => (i, [])
    | .ok (rest, v) =>
      if rest.length < i.length then
        let r := many0Aux p fuel rest
        (r.1, v :: r.2)
      else (i, [])

/-- nom `many0(p)`. -/
def many0 (p : List Char → PResult α) (i : List Char) : List Char × List α :=
  many0Aux p i.length i

/-- nom `many1(p)`: one match, then `many0`. -/
def many1 (p : List Char → PResult α) (i : List Char) : PResult (List α) :=
  match p i with
  | .error e => .error e
  | .ok (rest, v) =>
    let r := many0 p rest
    .ok (r.1, v :: r.2)

/-- nom `character::complete::i32`: optional sign, one or more digits, with
an `i32` range check. -/
def i32P (i : List Char) : PResult Int :=
  let sr : Int × List Char :=
    match i with
    | c :: rest => if c = '+' then (1, rest) else if c = '-' then (-1, rest) else (1, i)
    | [] => (1, i)
  let digits := sr.2.takeWhile (fun c => decide ('0' ≤ c ∧ c ≤ '9'))
  let rest := sr.2.dropWhile (fun c => decide ('0' ≤ c ∧ c ≤ '9'))
  if digits = [] then .error ()
  else
    let v : Int := sr.1 * (digits.foldl (fun a c => a * 10 + (c.toNat - 48)) (0 : Nat) : Nat)
    if v < -2147483648 ∨ 2147483647 < v then .error () else .ok (rest, v)

/-- `parse_sign` from src/parser.rs: `alt((char('+'), char('-')))`. -/
def parse_sign (i : List Char) : PResult Char :=
  match pchar '+' i with
  | .ok r => .ok r
  | .error _ => pchar '-' i

/-- `parse_line_addr` from src/parser.rs: a signed number is relative, an
unsigned positive number `N` is absolute `N-1`, unsigned `0` fails. -/
def parse_line_addr (i : List Char) : PResult Address :=
  let pref := parse_sign i
  match i32P i with
  | .error e => .error e
  | .ok (rest, o) =>
    match pref with
    | .ok _ => .ok (rest, Address.Rel o)
    | .error _ => if 0 < o then .ok (rest, Address.Abs (o - 1)) else .error ()

/-- The source's test `c > 0x60 && c < 0x7b` for a lowercase mark letter. -/
def isLowerLetter (n : Nat) : Bool :=
  0x60 < n && n < 0x7b

/-- `parse_mark_addr` from src/parser.rs: an apostrophe (`0x27`) followed by
a lowercase letter. -/
def parse_mark_addr (i : List Char) : PResult Address :=
  match pchar (Char.ofNat 39) i with
  | .error e => .error e
  | .ok (i1, _) =>
    match anychar i1 with
    | .error e => .error e
    | .ok (i2, c) =>
      if isLowerLetter c.toNat then .ok (i2, Address.Mark (c.toNat - 0x61))
      else .error ()

/-- `parse_special_addr` from src/parser.rs. -/
def parse_special_addr (i : List Char) : PResult Address :=
  match anychar i with
  | .error e => .error e
  | .ok (rest, c) =>
    if c = '.' then .ok (rest, Address.Rel 0)
    else if c = '$' then .ok (rest, Address.Abs (-1))
    else if c = '+' then .ok (rest, Address.Rel 1)
    else if c = '-' ∨ c = '^' then .ok (rest, Address.Rel (-1))
    else .error ()

/-- `parse_address` from src/parser.rs: `alt((mark, line, special))`. -/
def parse_address (i : List Char) : PResult Address :=
  match parse_mark_addr i with
  | .ok r => .ok r
  | .error _ =>
    match parse_line_addr i with
    | .ok r => .ok r
    | .error _ => parse_special_addr i

/-- One alternative of `parse_regex` from src/parser.rs:
`tuple((char(d), opt(many1(none_of("/?\n"))), opt(char(d))))`. -/
def parse_regex_delim (d : Char) (i : List Char) : PResult (Char × Option (List Char)) :=
  match pchar d i with
  | .error e => .error e
  | .ok (i1, c) =>
    let s := popt (many1 (noneOf ['/', '?', '\n'])) i1
    let r := popt (pchar d) s.1
    .ok (r.1, (c, s.2))

/-- `parse_regex` from src/parser.rs: `/pattern/` or `?pattern?`, the
pattern being one or more characters outside `/?\n`, trailing delimiter
optional. -/
def parse_regex (i : List Char) : PResult AddressRange :=
  let r : PResult (Char × Option (List Char)) :=
    match parse_regex_delim '/' i with
    | .ok r => .ok r
    | .error _ => parse_regex_delim '?' i
  match r with
  | .error e => .error e
  | .ok (rest, (c, s)) =>
    if c = '/' then .ok (rest, AddressRange.Next s)
    else if c = '?' then .ok (rest, AddressRange.Prev s)
    else .error ()

/-- `parse_special_range` from src/parser.rs. -/
def parse_special_range (i : List Char) : PResult AddressRange :=
  match anychar i with
  | .error e => .error e
  | .ok (rest, c) =>
    if c = '%' ∨ c = ',' then
      .ok (rest, AddressRange.Range (Address.Abs 0) (Address.Abs (-1)))
    else if c = ';' then
      .ok (rest, AddressRange.Range (Address.Rel 0) (Address.Abs (-1)))
    else .error ()

/-- `parse_tuple_range` from src/parser.rs: `addr,addr`. -/
def parse_tuple_range (i : List Char) : PResult AddressRange :=
  match parse_address i with
  | .error e => .error e
  | .ok (i1, f) =>
    match pchar ',' i1 with
    | .error e => .error e
    | .ok (i2, _) =>
      match parse_address i2 with
      | .error e => .error e
      | .ok (i3, t) => .ok (i3, AddressRange.Range f t)

/-- `parse_simple_range` from src/parser.rs: a bare address as a degenerate
range. -/
def parse_simple_range (i : List Char) : PResult AddressRange :=
  match parse_address i with
  | .error e => .error e
  | .ok (rest, f) => .ok (rest, AddressRange.Range f f)

/-- `parse_address_range` from src/parser.rs:
`alt((special, tuple, simple, regex))`. -/
def parse_address_range (i : List Char) : PResult AddressRange :=
  match parse_special_range i with
  | .ok r => .ok r
  | .error _ =>
    match parse_tuple_range i with
    | .ok r => .ok r
    | .error _ =>
      match parse_simple_range i with
      | .ok r => .ok r
      | .error _ => parse_regex i

/-- `parse_simple_cmd` from src/parser.rs. -/
def parse_simple_cmd (i : List Char) : PResult Command :=
  match anychar i with
  | .error e => .error e
  | .ok (rest, c) =>
    if c = 'a' then .ok (rest, Command.Append [])
    else if c = 'c' then .ok (rest, Command.Change [])
    else if c = 'd' then .ok (rest, Command.Delete)
    else if c = 'H' then .ok (rest, Command.Help)
    else if c = 'i' then .ok (rest, Command.Insert [])
    else if c = 'P' then .ok (rest, Command.Prompt)
    else if c = 'q' then .ok (rest, Command.Quit)
    else if c = '=' then .ok (rest, Command.CurLine)
    else .error ()

/-- `parse_mark_cmd` from src/parser.rs: note that the source matches the
character `m` (`preceded(char('m'), anychar)`), not `k`, before the
lowercase mark letter. -/
def parse_mark_cmd (i : List Char) : PResult Command :=
  match pchar 'm' i with
  | .error e => .error e
  | .ok (i1, _) =>
    match anychar i1 with
    | .error e => .error e
    | .ok (i2, c) =>
      if isLowerLetter c.toNat then .ok (i2, Command.Mark (c.toNat - 0x61))
      else .error ()

/-- `parse_path` from src/parser.rs: take characters up to the next
newline, failing on an empty result. -/
def parse_path (i : List Char) : PResult (List Char) :=
  let taken := i.takeWhile (fun c => c ≠ '\n')
  if taken = [] then .error ()
  else .ok (i.dropWhile (fun c => c ≠ '\n'), taken)

/-- `parse_file_cmd` from src/parser.rs: `e`/`f`/`r`/`w` with an optional
space-separated path (`f` requires the path). -/
def parse_file_cmd (i : List Char) : PResult Command :=
  match anychar i with
  | .error e => .error e
  | .ok (i1, c) =>
    let sp : List Char × Option (List Char) :=
      match pchar ' ' i1 with
      | .ok (i2, _) =>
        match parse_path i2 with
        | .ok (i3, p) => (i3, some p)
        | .error _ => (i1, none)
      | .error _ => (i1, none)
    if c = 'e' then .ok (sp.1, Command.Edit sp.2)
    else if c = 'f' then
      match sp.2 with
      | some p => .ok (sp.1, Command.File p)
      | none => .error ()
    else if c = 'r' then .ok (sp.1, Command.Read sp.2)
    else if c = 'w' then .ok (sp.1, Command.Write sp.2)
    else .error ()

/-- `parse_exec_cmd` from src/parser.rs: `!` followed by the rest of the
line. -/
def parse_exec_cmd (i : List Char) : PResult Command :=
  match pchar '!' i with
  | .error e => .error e
  | .ok (i1, _) =>
    match parse_path i1 with
    | .error e => .error e
    | .ok (i2, s) => .ok (i2, Command.Exec s)

/-- `parse_flag` from src/parser.rs. -/
def parse_flag (i : List Char) : PResult PrintFlag :=
  match anychar i with
  | .error e => .error e
  | .ok (rest, c) =>
    if c = 'n' then .ok (rest, PrintFlag.Number)
    else if c = 'p' then .ok (rest, PrintFlag.Print)
    else .error ()

/-- `parse_command` from src/parser.rs: optional address range, optional
command (`alt((simple, mark, file, exec))`), trailing print flags folded
with `print_flag_set`, and a terminating newline. -/
def parse_command (i : List Char) :
    PResult (Option AddressRange × Option Command × PrintFlag) :=
  let r := popt parse_address_range i
  let c := popt (fun j =>
    match parse_simple_cmd j with
    | .ok x => .ok x
    | .error _ =>
      match parse_mark_cmd j with
      | .ok x => .ok x
      | .error _ =>
        match parse_file_cmd j with
        | .ok x => .ok x
        | .error _ => parse_exec_cmd j) r.1
  let f := many0 parse_flag c.1
  match pchar '\n' f.1 with
  | .error e => .error e
  | .ok (rest, _) =>
    .ok (rest, (r.2, c.2, f.2.foldl print_flag_set PrintFlag.None))

/-- `parse_terminator` from src/parser.rs: a line that is exactly `.`. -/
def parse_terminator (i : List Char) : PResult Unit :=
  match pchar '.' i with
  | .error e => .error e
  | .ok (i1, _) =>
    match pchar '\n' i1 with
    | .error e => .error e
    | .ok (i2, _) => .ok (i2, ())

/-- Decidable equality for parser results, so concrete runs of the parser
can be checked by `decide`. -/
instance {ε α : Type} [DecidableEq ε] [DecidableEq α] : DecidableEq (Except ε α)
  | .ok a, .ok b =>
    if h : a = b then .isTrue (by simp [h]) else .isFalse (by simp [h])
  | .ok _, .error _ => .isFalse (by simp)
  | .error _, .ok _ => .isFalse (by simp)
  | .error a, .error b =>
    if h : a = b then .isTrue (by simp [h]) else .isFalse (by simp [h])

/-! ### Command engine (src/main.rs)

`CommandError` carries a message string in the source; the distinct
messages become tags here.  External collaborators are bundled in `Env`:
the readable file system (`fs`, path to content), the writable paths
(`writeOk`), the regex engine (`compile`, `Regex::new` + `is_match` —
`none` models a pattern that fails to compile), the shell (`shellOk`) and
the lines typed in insert mode (`input`, consumed by `input_to_buffer`).
The compiled regex stored in `last_match.1` is modelled by keeping the
pattern text and recompiling through the pure `compile` on reuse, which is
observationally identical. -/

/-- The distinct `CommandError` messages of src/main.rs and src/error.rs. -/
inductive Err where
  | invalidPath : Err
  | invalidMark : Err
  | invalidRegex : Err
  | noPreviousSearch : Err
  | noMatch : Err
  | expectedSingleLine : Err
  | invalidAddress : Err
  | modified : Err
  | commandFailed : Err
  | intConv : Err
deriving DecidableEq

/-- `State` from src/main.rs (`last_match` split into its two fields). -/
structure State where
  buffer : Buffer
  file : Line
  lastPos : Option Nat
  lastRe : Option Line
  prompt : Bool
  verbose : Bool
deriving DecidableEq

/-- External collaborators of the command engine. -/
structure Env where
  fs : Line → Option (List Char)
  writeOk : Line → Bool
  compile : Line → Option (Line → Bool)
  shellOk : Line → Bool
  input : List Line

/-- One step of `BufRead::lines`'s terminator stripping: remove a single
trailing carriage return (the `\r` of a CRLF ending). -/
def chompCR (l : List Char) : List Char :=
  if l.getLast? = some '\r' then l.dropLast else l

/-- `BufRead::lines` on a file content, accumulator-based: split at each
newline, stripping the newline and a preceding carriage return; a final
fragment not ended by a newline is yielded as-is (no `\r` stripping, as in
Rust); an empty content yields no lines. -/
def readLinesAux : List Char → List Char → List (List Char)
  | [], cur => [cur.reverse]
  | c :: rest, cur =>
    if c = '\n' then
      chompCR cur.reverse :: (if rest.isEmpty then [] else readLinesAux rest [])
    else readLinesAux rest (c :: cur)

/-- `BufRead::lines` over a whole content. -/
def readLines : List Char → List (List Char)
  | [] => []
  | c :: rest => readLinesAux (c :: rest) []

/-- `read_to_buffer` from src/main.rs: open the path (error `invalid path`
on failure) and collect its lines into a fresh buffer. -/
def read_to_buffer (env : Env) (f : Line) : Except Err Buffer :=
  match env.fs f with
  | none => .error .invalidPath
  | some content => .ok (Buffer.fromIter (readLines content))

/-- `read_file` from src/main.rs: load the path into a fresh `State`,
keeping only `prompt` and `verbose` (the byte-count printing is an output
concern with no state effect and is not modelled). -/
def read_file (env : Env) (s : State) (f : Line) : Except Err State :=
  match read_to_buffer env f with
  | .error e => .error e
  | .ok buf =>
    .ok { buffer := buf, file := f, lastPos := none, lastRe := none,
          prompt := s.prompt, verbose := s.verbose }

/-- `i32::MAX`, the bound of the `i32::try_from` conversions in
`line_to_index`. -/
def maxI32 : Int := 2147483647

/-- `line_to_index` from src/main.rs: absolute, relative and mark
addresses to a 0-based index; a failed `try_from` conversion surfaces as
an error (`intConv`), an unset mark as `invalidMark`. -/
def line_to_index (s : State) (l : Address) : Except Err Nat :=
  match l with
  | .Abs c =>
    if c < 0 then
      if maxI32 < (s.buffer.lines.length : Int) then .error .intConv
      else if (s.buffer.lines.length : Int) + c < 0 then .error .intConv
      else .ok ((s.buffer.lines.length : Int) + c).toNat
    else .ok c.toNat
  | .Rel c =>
    if maxI32 < (s.buffer.curline : Int) then .error .intConv
    else if (s.buffer.curline : Int) + c < 0 then .error .intConv
    else .ok ((s.buffer.curline : Int) + c).toNat
  | .Mark m =>
    match s.buffer.marks.getD m none with
    | some v => .ok v
    | none => .error .invalidMark

/-- The forward scan of `find_regex`:
`enumerate().skip(i+1).chain(enumerate().take(i+1))`. -/
def scanForward (lines : List Line) (i : Nat) : List (Nat × Line) :=
  lines.enum.drop (i + 1) ++ lines.enum.take (i + 1)

/-- The backward scan of `find_regex`:
`enumerate().skip(i).chain(enumerate().take(i))`, searched from the end
(`rfind`). -/
def scanBackward (lines : List Line) (i : Nat) : List (Nat × Line) :=
  lines.enum.drop i ++ lines.enum.take i

/-- `find_regex` from src/main.rs.  With a pattern: compile it (error
`invalidRegex` leaves the state untouched), store it and start from the
current line.  Without: reuse the stored position and pattern (error
`noPreviousSearch` if absent).  Scan circularly, forward with `find`,
backward with `rfind`; the found index updates the stored position and is
returned as a degenerate range.  `noMatch` leaves the stored pattern
update in place. -/
def find_regex (env : Env) (s : State) (regex : Option Line) (forward : Bool) :
    State × Except Err (Nat × Nat) :=
  let compiled : Except Err (State × Nat × (Line → Bool)) :=
    match regex with
    | some re =>
      match env.compile re with
      | none => .error .invalidRegex
      | some r => .ok ({ s with lastRe := some re }, s.buffer.curline, r)
    | none =>
      match s.lastPos, s.lastRe with
      | some i, some re =>
        match env.compile re with
        | some r => .ok (s, i, r)
        | none => .error .noPreviousSearch
      | _, _ => .error .noPreviousSearch
  match compiled with
  | .error e => (s, .error e)
  | .ok (s1, i, r) =>
    let found :=
      if forward then (scanForward s1.buffer.lines i).find? (fun p => r p.2)
      else ((scanBackward s1.buffer.lines i).reverse).find? (fun p => r p.2)
    match found with
    | none => (s1, .error .noMatch)
    | some p => ({ s1 with lastPos := some p.1 }, .ok (p.1, p.1))

/-- `extract_addr_range` from src/main.rs: an explicit range resolves both
endpoints (error `invalidAddress` when `from > to`), a search address runs
`find_regex`, no address is the current line twice. -/
def extract_addr_range (env : Env) (s : State) (range : Option AddressRange) :
    State × Except Err (Nat × Nat) :=
  match range with
  | some (.Range f t) =>
    match line_to_index s f with
    | .error e => (s, .error e)
    | .ok fi =>
      match line_to_index s t with
      | .error e => (s, .error e)
      | .ok ti =>
        if ti < fi then (s, .error .invalidAddress) else (s, .ok (fi, ti))
  | some (.Next re) => find_regex env s re true
  | some (.Prev re) => find_regex env s re false
  | none =>
    match line_to_index s (.Rel 0) with
    | .error e => (s, .error e)
    | .ok a =>
      match line_to_index s (.Rel 0) with
      | .error e => (s, .error e)
      | .ok b => (s, .ok (a, b))

/-- `is_line` from src/main.rs: a degenerate range or `expectedSingleLine`. -/
def is_line (f t : Nat) : Except Err Nat :=
  if f ≠ t then .error .expectedSingleLine else .ok t

/-- `is_valid` from src/main.rs: the index must be below the buffer
length. -/
def is_valid (s : State) (i : Nat) : Except Err Nat :=
  if i < s.buffer.lines.length then .ok i else .error .invalidAddress

/-- Outcome of executing one command.  `ok` carries the new state and the
`(path, content)` pairs written to disk; `err` carries the state as left
by the failing command (mutations before the failure point persist, as in
the source); `panic` is an out-of-bounds `Vec::splice`; `exited` is
`process::exit`. -/
inductive ExecResult where
  | ok (s : State) (writes : List (Line × List Char)) : ExecResult
  | err (e : Err) (s : State) : ExecResult
  | panic : ExecResult
  | exited (code : Nat) : ExecResult
deriving DecidableEq

/-- `Vec::splice` through `Buffer::replace_iter`, with the source's panic
condition made explicit: the range must be ordered and end within the
vector. -/
def replace_checked (s : State) (start stop : Nat) (b : List Line) : Option State :=
  if start ≤ stop ∧ stop ≤ s.buffer.lines.length then
    some { s with buffer := s.buffer.replace_iter start stop b }
  else none

/-- `buffer_insert` from src/main.rs: splice at `line..line`. -/
def buffer_insert (s : State) (line : Nat) (b : List Line) : Option State :=
  replace_checked s line line b

/-- `write_file` from src/main.rs: serialize the buffer to the path, or
`invalidPath`. -/
def write_file (env : Env) (s : State) (f : Line) : Except Err (Line × List Char) :=
  if env.writeOk f then .ok (f, s.buffer.toString) else .error .invalidPath

/-- The body of `exec_command` from src/main.rs after the address range
has been resolved to `(f, t)`.  `input_to_buffer` (which fills the
`Append`/`Insert`/`Change` block from stdin before the dispatch) appears
as the `++ env.input` on those blocks.  Printing (`print_range`, `=`, the
byte count) has no state effect and is not modelled. -/
def exec_with_range (env : Env) (s : State) (f t : Nat)
    (command : Option Command) (flags : PrintFlag) : ExecResult :=
  match command with
  | none =>
    match is_valid s f with
    | .error e => .err e s
    | .ok _ =>
      match is_valid s t with
      | .error e => .err e s
      | .ok _ =>
        if flags = PrintFlag.None then
          match is_line f t with
          | .error e => .err e s
          | .ok l => .ok { s with buffer := { s.buffer with curline := l } } []
        else .ok s []
  | some (.Append b) =>
    let b := b ++ env.input
    match is_line f t with
    | .error e => .err e s
    | .ok line =>
      let target :=
        match is_valid s (line + 1) with
        | .ok v => v
        | .error _ => line
      match buffer_insert s target b with
      | some s1 => .ok s1 []
      | none => .panic
  | some (.Insert b) =>
    let b := b ++ env.input
    match is_line f t with
    | .error e => .err e s
    | .ok line =>
      match buffer_insert s line b with
      | some s1 => .ok s1 []
      | none => .panic
  | some (.Change b) =>
    let b := b ++ env.input
    match is_valid s f with
    | .error e => .err e s
    | .ok _ =>
      match is_valid s t with
      | .error e => .err e s
      | .ok _ =>
        match replace_checked s f (t + 1) b with
        | some s1 => .ok s1 []
        | none => .panic
  | some .Delete =>
    match is_valid s f with
    | .error e => .err e s
    | .ok _ =>
      match is_valid s t with
      | .error e => .err e s
      | .ok _ =>
        match replace_checked s f (t + 1) [] with
        | some s1 =>
          let cur := s1.buffer.curline
          let newcur := if cur + 1 < s1.buffer.lines.length then cur + 1 else cur
          .ok { s1 with buffer := { s1.buffer with curline := newcur } } []
        | none => .panic
  | some .CurLine => .ok s []
  | some (.Edit fo) =>
    if s.buffer.changed then
      .err .modified { s with buffer := { s.buffer with changed := false } }
    else
      match fo with
      | some f2 =>
        match read_file env s f2 with
        | .error e => .err e s
        | .ok s1 => .ok { s1 with file := f2 } []
      | none =>
        match read_file env s s.file with
        | .error e => .err e s
        | .ok s1 => .ok s1 []
  | some (.Exec c) =>
    if env.shellOk c then .ok s [] else .err .commandFailed s
  | some (.File f2) => .ok { s with file := f2 } []
  | some .Help => .ok { s with verbose := !s.verbose } []
  | some (.Mark m) =>
    match is_valid s f with
    | .error e => .err e s
    | .ok _ =>
      match is_valid s t with
      | .error e => .err e s
      | .ok _ =>
        match is_line f t with
        | .error e => .err e s
        | .ok l =>
          .ok { s with buffer := { s.buffer with marks := s.buffer.marks.set m (some l) } } []
  | some .Prompt => .ok { s with prompt := !s.prompt } []
  | some (.Read fo) =>
    let rb :=
      match fo with
      | some f2 => read_to_buffer env f2
      | none => read_to_buffer env s.file
    match rb with
    | .error _ => .err .invalidPath s
    | .ok buf =>
      match is_line f t with
      | .error e => .err e s
      | .ok l =>
        match buffer_insert s (l + 1) buf.lines with
        | some s1 => .ok s1 []
        | none => .panic
  | some (.Write fo) =>
    let path :=
      match fo with
      | some f2 => f2
      | none => s.file
    match write_file env s path with
    | .error e => .err e s
    | .ok w => .ok s [w]
  | some .Quit =>
    if s.buffer.changed then
      .err .modified { s with buffer := { s.buffer with changed := false } }
    else .exited 0

/-- `exec_command` from src/main.rs: resolve the address range, then
dispatch. -/
def exec_command (env : Env) (s : State)
    (c : Option AddressRange × Option Command × PrintFlag) : ExecResult :=
  match extract_addr_range env s c.1 with
  | (s1, .error e) => .err e s1
  | (s1, .ok (f, t)) => exec_with_range env s1 f t c.2.1 c.2.2

/-- A closed environment for concrete evaluations: empty file system,
no writable paths, no regex engine, no shell, no insert-mode input. -/
def env0 : Env :=
  { fs := fun _ => none, writeOk := fun _ => false, compile := fun _ => none,
    shellOk := fun _ => false, input := [] }

/-- A concrete state for witnesses and counterexamples: the given lines,
current line and changed flag, a fresh mark table, default filename `F`,
no search state. -/
def mkState (ls : List Line) (cur : Nat) (ch : Bool) : State :=
  { buffer := { lines := ls, marks := List.replicate 26 none, changed := ch, curline := cur },
    file := ['F'], lastPos := none, lastRe := none, prompt := false, verbose := false }

/-- Circular distance from `i` to `j` in a buffer of `len` lines, counting
forward: the position of `j` in the scan order `i+1, ..., len-1, 0, ..., i`
(so `cdist len i (i+1) = 1` and `cdist len i i = len`).  "The circularly
closest match strictly after `i`" is the match minimising this distance. -/
def cdist (len i j : Nat) : Nat :=
  if i < j then j - i else j + len - i

/-- A successful `noneOf` returns a character outside the forbidden set and
consumes it. -/
theorem noneOf_ok (bad i rest : List Char) (c : Char)
    (h : noneOf bad i = .ok (rest, c)) : c ∉ bad ∧ rest.length < i.length := by
  cases i with
  | nil => simp [noneOf] at h
  | cons x xs =>
    by_cases hx : x ∈ bad
    · simp [noneOf, hx] at h
    · simp [noneOf, hx] at h
      obtain ⟨h1, h2⟩ := h
      subst h1
      subst h2
      exact ⟨hx, by simp⟩

/-- Every character produced by iterating `noneOf bad` lies outside `bad`. -/
theorem many0Aux_noneOf (bad : List Char) (fuel : Nat) :
    ∀ (i : List Char), ∀ c ∈ (many0Aux (noneOf bad) fuel i).2, c ∉ bad := by
  induction fuel with
  | zero => intro i c hc; simp [many0Aux] at hc
  | succ n ih =>
    intro i c hc
    unfold many0Aux at hc
    cases hni : noneOf bad i with
    | error e => rw [hni] at hc; simp at hc
    | ok r =>
      rw [hni] at hc
      by_cases hl : r.1.length < i.length
      · simp only [hl, if_true, List.mem_cons] at hc
        rcases hc with hc | hc
        · subst hc
          exact (noneOf_ok bad i r.1 r.2 (by rw [hni])).1
        · exact ih r.1 c hc
      · simp [hl] at hc

/-- Every character produced by `many1 (noneOf bad)` lies outside `bad`. -/
theorem many1_noneOf (bad i rest : List Char) (cs : List Char)
    (h : many1 (noneOf bad) i = .ok (rest, cs)) : ∀ c ∈ cs, c ∉ bad := by
  unfold many1 at h
  cases hni : noneOf bad i with
  | error e => rw [hni] at h; cases h
  | ok r =>
    rw [hni] at h
    simp only [Except.ok.injEq, Prod.mk.injEq] at h
    intro c hc
    rw [← h.2] at hc
    rcases List.mem_cons.mp hc with hc | hc
    · subst hc
      exact (noneOf_ok bad i r.1 r.2 (by rw [hni])).1
    · exact many0Aux_noneOf bad r.1.length r.1 c hc

/-- A pattern accepted by one `parse_regex` alternative contains no `/`,
`?` or newline characters. -/
theorem parse_regex_delim_pattern (d : Char) (i rest : List Char) (c : Char)
    (pat : List Char)
    (h : parse_regex_delim d i = .ok (rest, (c, some pat))) :
    ∀ ch ∈ pat, ch ∉ ['/', '?', '\n'] := by
  unfold parse_regex_delim at h
  cases hpc : pchar d i with
  | error e => rw [hpc] at h; cases h
  | ok r =>
    rw [hpc] at h
    cases hm : many1 (noneOf ['/', '?', '\n']) r.1 with
    | error e => simp [popt, hm] at h
    | ok mr =>
      simp only [popt, hm, Except.ok.injEq, Prod.mk.injEq, Option.some.injEq] at h
      intro ch hch
      rw [← h.2.2] at hch
      exact many1_noneOf ['/', '?', '\n'] r.1 mr.1 mr.2 (by rw [hm]) ch hch

/-- Claim C7: Insert, Append and Mark on a validated resolved range with
`from ≠ to` fail with `expectedSingleLine` and return the state exactly as
it was (no mutation of lines, marks or the changed flag). -/
theorem single_line_enforcement (env : Env) (s : State) (f t m : Nat)
    (bl : List Line) (flags : PrintFlag)
    (hne : f ≠ t) (hf : f < s.buffer.lines.length) (ht : t < s.buffer.lines.length) :
    exec_with_range env s f t (some (.Insert bl)) flags = .err .expectedSingleLine s ∧
    exec_with_range env s f t (some (.Append bl)) flags = .err .expectedSingleLine s ∧
    exec_with_range env s f t (some (.Mark m)) flags = .err .expectedSingleLine s := by
  simp [exec_with_range, is_line, is_valid, hne, hf, ht]

/-- Witness for C7: the range `(0,1)` on a two-line buffer. -/
theorem single_line_enforcement_witness :
    exec_with_range env0 (mkState [['a'], ['b']] 0 false) 0 1 (some (.Insert [])) .None =
      .err .expectedSingleLine (mkState [['a'], ['b']] 0 false) ∧
    exec_with_range env0 (mkState [['a'], ['b']] 0 false) 0 1 (some (.Append [])) .None =
      .err .expectedSingleLine (mkState [['a'], ['b']] 0 false) ∧
    exec_with_range env0 (mkState [['a'], ['b']] 0 false) 0 1 (some (.Mark 2)) .None =
      .err .expectedSingleLine (mkState [['a'], ['b']] 0 false) :=
  single_line_enforcement env0 (mkState [['a'], ['b']] 0 false) 0 1 2 [] .None
    (by decide) (by decide) (by decide)

/-- Claim C6 (code bug evaluated at the failing input): the spec and the
source's own comment (`// kx  Marks a line ...`) describe the mark command
as `k` followed by a lowercase letter, but `parse_mark_cmd` matches the
character `m`: the line `ka` is a syntax error, the line `ma` parses as
the mark command for letter `a`, and a non-lowercase mark letter (`mA`)
is a syntax error. -/
theorem mark_command_uses_m_not_k :
    parse_command ['k', 'a', '\n'] = .error () ∧
    parse_command ['m', 'a', '\n'] =
      .ok ([], (none, some (Command.Mark 0), PrintFlag.None)) ∧
    parse_command ['m', 'A', '\n'] = .error () :=
  ⟨rfl, rfl, rfl⟩

/-- Claim C10: a search-address pattern accepted by `parse_regex` never
contains `/`, `?` or a newline, in both the forward and the backward
alternative (either delimiter terminates the pattern regardless of search
direction); in particular the full line `/a?b/` does not parse (the
pattern stops at `?`, after which no command matches and the terminating
newline is missing). -/
theorem search_pattern_excludes_delimiters :
    (∀ (i rest : List Char) (ar : AddressRange) (pat : List Char),
      parse_regex i = .ok (rest, ar) →
      (ar = AddressRange.Next (some pat) ∨ ar = AddressRange.Prev (some pat)) →
      ∀ c ∈ pat, c ≠ '/' ∧ c ≠ '?' ∧ c ≠ '\n') ∧
    parse_command ['/', 'a', '?', 'b', '/', '\n'] = .error () := by
  constructor
  · intro i rest ar pat h har c hc
    have key : c ∉ ['/', '?', '\n'] := by
      unfold parse_regex at h
      cases h1 : parse_regex_delim '/' i with
      | ok r =>
        rw [h1] at h
        rcases r with ⟨r1, rc, rs⟩
        by_cases hrc : rc = '/'
        · simp only [hrc, if_true] at h
          cases h
          rcases har with har | har
          · cases har
            exact parse_regex_delim_pattern '/' i rest '/' pat (hrc ▸ h1) c hc
          · cases har
        · by_cases hrc2 : rc = '?'
          · simp only [hrc, if_false, hrc2, if_true] at h
            cases h
            rcases har with har | har
            · cases har
            · cases har
              exact parse_regex_delim_pattern '/' i rest '?' pat (hrc2 ▸ h1) c hc
          · simp [hrc, hrc2] at h
      | error e =>
        rw [h1] at h
        cases h2 : parse_regex_delim '?' i with
        | error e2 => rw [h2] at h; cases h
        | ok r =>
          rw [h2] at h
          rcases r with ⟨r1, rc, rs⟩
          by_cases hrc : rc = '/'
          · simp only [hrc, if_true] at h
            cases h
            rcases har with har | har
            · cases har
              exact parse_regex_delim_pattern '?' i rest '/' pat (hrc ▸ h2) c hc
            · cases har
          · by_cases hrc2 : rc = '?'
            · simp only [hrc, if_false, hrc2, if_true] at h
              cases h
              rcases har with har | har
              · cases har
              · cases har
                exact parse_regex_delim_pattern '?' i rest '?' pat (hrc2 ▸ h2) c hc
            · simp [hrc, hrc2] at h
    simp only [List.mem_cons, List.mem_singleton] at key
    push_neg at key
    exact ⟨key.1, key.2.1, by simpa using key.2.2⟩
  · rfl

/-- Witness for C10 at a concrete accepted pattern: `/ab/` parses as a
forward search for `ab`, and its first character is none of the three
delimiters. -/
theorem search_pattern_excludes_delimiters_witness :
    ('a' : Char) ≠ '/' ∧ ('a' : Char) ≠ '?' ∧ ('a' : Char) ≠ '\n' :=
  search_pattern_excludes_delimiters.1 ['/', 'a', 'b', '/'] []
    (AddressRange.Next (some ['a', 'b'])) ['a', 'b'] rfl (Or.inl rfl)
    'a' (by simp)

/-- Claim C1: for every buffer, mark table and replace operation splicing the
half-open range `start..stop` (the callers pass `from..(to+1)` for the
inclusive range `[from,to]`, and `line..line` for pure insertion) with `k`
new lines: a mark `m ≥ stop` (i.e. `m > to`) becomes `m + k - (stop-start)`
(the net length delta), a mark with `start ≤ m < stop` (i.e.
`from ≤ m ≤ to`) is cleared, and a mark `m < start` is unchanged.  This
covers `k = 0` (pure deletion) and `start = stop` (pure insertion). -/
theorem replace_iter_marks (b : Buffer) (start stop : Nat) (new : List Line)
    (hss : start ≤ stop) (hsl : stop ≤ b.lines.length)
    (i m : Nat) (hm : b.marks[i]? = some (some m)) :
    (b.replace_iter start stop new).marks[i]? =
      some (if start ≤ m ∧ m < stop then none
            else if stop ≤ m then some (m + new.length - (stop - start))
            else some m) := by
  have hlen : (b.lines.take start ++ new ++ b.lines.drop stop).length
      = start + new.length + (b.lines.length - stop) := by
    simp [List.length_append, List.length_take, List.length_drop]
    omega
  unfold Buffer.replace_iter
  simp only [List.getElem?_map, hm, Option.map_some', range_contains, range_after,
    Bool.and_eq_true, decide_eq_true_eq, hlen]
  congr 1
  split_ifs with h1 h2
  · rfl
  · congr 1
    omega
  · rfl

/-- Witness for C1 at a concrete buffer: splicing lines `[1,3)` out of a
six-line buffer and inserting one line shifts the mark at index 5 to
`5 + 1 - 2 = 4`. -/
theorem replace_iter_marks_witness :
    ((Buffer.mk [['a'],['b'],['c'],['d'],['e'],['f']] [some 0, some 1, some 5]
        false 0).replace_iter 1 3 [['z']]).marks[2]? = some (some 4) := by
  have h := replace_iter_marks
    (Buffer.mk [['a'],['b'],['c'],['d'],['e'],['f']] [some 0, some 1, some 5] false 0)
    1 3 [['z']] (by decide) (by decide) 2 5 (by decide)
  simpa using h

/-- Counterexample to claim C2 as stated: on buffer `a b c d` with current
line 0, deleting line 3 (`3d`, resolved range `(2,2)`) leaves current line
1 (`old current + 1`), not `min(to+1, length-1) = min(3, 2) = 2` as the
claim requires. -/
theorem delete_curline_counterexample :
    exec_command env0 (mkState [['a'], ['b'], ['c'], ['d']] 0 false)
      (some (.Range (.Abs 2) (.Abs 2)), some .Delete, .None) =
      .ok (mkState [['a'], ['b'], ['d']] 1 true) [] ∧
    (1 : Nat) ≠ min (2 + 1) (3 - 1) := by
  refine ⟨?_, by decide⟩
  decide

/-- Claim C2 amended: Delete removes exactly the lines `[from,to]` and sets
the changed flag; the current line then becomes the previous current line
plus one when that is a valid index of the shortened buffer, and stays at
the previous current line otherwise (it is computed from the pre-command
current line, not from `to`).  In the scenario `["a","b","c"]`, `2d` with
current line 0, the buffer becomes `["a","c"]` with current line 1. -/
theorem delete_semantics (env : Env) (s : State) (f t : Nat) (flags : PrintFlag)
    (hft : f ≤ t) (ht : t < s.buffer.lines.length) :
    ∃ s1, exec_with_range env s f t (some .Delete) flags = .ok s1 [] ∧
      s1.buffer.lines = s.buffer.lines.take f ++ s.buffer.lines.drop (t + 1) ∧
      s1.buffer.changed = true ∧
      s1.buffer.curline =
        (if s.buffer.curline + 1 < s1.buffer.lines.length then s.buffer.curline + 1
         else s.buffer.curline) := by
  have hf : f < s.buffer.lines.length := lt_of_le_of_lt hft ht
  have key : replace_checked s f (t + 1) [] =
      some { s with buffer := s.buffer.replace_iter f (t + 1) [] } := by
    simp only [replace_checked, if_pos (show f ≤ t + 1 ∧ t + 1 ≤ s.buffer.lines.length by omega)]
  refine ⟨{ s with buffer :=
    { s.buffer.replace_iter f (t + 1) [] with curline :=
        if s.buffer.curline + 1 < (s.buffer.replace_iter f (t + 1) []).lines.length then
          s.buffer.curline + 1
        else s.buffer.curline } }, ?_, ?_, ?_, ?_⟩
  · simp only [exec_with_range, is_valid, hf, ht, if_true, key]
    simp [Buffer.replace_iter]
  · simp [Buffer.replace_iter]
  · rfl
  · simp [Buffer.replace_iter]

/-- Witness for C2 (amended), which is also the spec scenario: buffer
`["a","b","c"]`, current line 0, delete line 2. -/
theorem delete_semantics_witness :
    ∃ s1, exec_with_range env0 (mkState [['a'], ['b'], ['c']] 0 false) 1 1
        (some .Delete) .None = .ok s1 [] ∧
      s1.buffer.lines =
        (mkState [['a'], ['b'], ['c']] 0 false).buffer.lines.take 1 ++
          (mkState [['a'], ['b'], ['c']] 0 false).buffer.lines.drop 2 ∧
      s1.buffer.changed = true ∧
      s1.buffer.curline =
        (if (mkState [['a'], ['b'], ['c']] 0 false).buffer.curline + 1 <
            s1.buffer.lines.length then
          (mkState [['a'], ['b'], ['c']] 0 false).buffer.curline + 1
         else (mkState [['a'], ['b'], ['c']] 0 false).buffer.curline) :=
  delete_semantics env0 (mkState [['a'], ['b'], ['c']] 0 false) 1 1 .None
    (by decide) (by decide)

/-- Claim C3 (code bug evaluated at the failing input): Write serializes
every line followed by a newline, in order, to the given path — but it
does NOT clear the buffer's changed flag (no branch of the Write command
touches `changed`), so the invariant "changed iff mutated since load or
last write" is broken right after a successful write. -/
theorem write_keeps_changed_flag :
    exec_with_range { env0 with writeOk := fun _ => true }
      (mkState [['a'], ['b']] 0 true) 0 0 (some (.Write (some ['f']))) .None =
      .ok (mkState [['a'], ['b']] 0 true) [(['f'], ['a', '\n', 'b', '\n'])] ∧
    (mkState [['a'], ['b']] 0 true).buffer.changed = true := by
  refine ⟨?_, rfl⟩
  decide

/-- Counterexample to claim C5 as stated: Insert with the out-of-range
resolved range `(4,4)` on a two-line buffer reaches `Vec::splice` with a
start beyond the vector length — a panic, not an `invalidAddress` error. -/
theorem insert_out_of_range_panics :
    exec_with_range env0 (mkState [['a'], ['b']] 0 false) 4 4
      (some (.Insert [])) .None = .panic := by
  decide

/-- Claim C5 amended: Change, Delete and Mark check both resolved indices
with `is_valid` and surface `invalidAddress` whenever `to ≥ length`, for
every `from`; Append, Insert and Read perform no such check before
splicing their single-line target: with `to > length` (Insert, Append) or
`to ≥ length` (Read, once its file is readable) the splice index exceeds
the buffer length and the program panics, and with `to = length` Append
and Insert silently splice at the end of the buffer and succeed. -/
theorem range_check_per_command (env : Env) (s : State) (f t m : Nat)
    (bl : List Line) (flags : PrintFlag) (content : List Char) :
    (s.buffer.lines.length < t →
      exec_with_range env s t t (some (.Insert bl)) flags = .panic ∧
      exec_with_range env s t t (some (.Append bl)) flags = .panic) ∧
    (s.buffer.lines.length ≤ t → env.fs s.file = some content →
      exec_with_range env s t t (some (.Read none)) flags = .panic) ∧
    (s.buffer.lines.length ≤ t →
      exec_with_range env s f t (some .Delete) flags = .err .invalidAddress s ∧
      exec_with_range env s f t (some (.Mark m)) flags = .err .invalidAddress s ∧
      exec_with_range env s f t (some (.Change bl)) flags = .err .invalidAddress s) ∧
    (t = s.buffer.lines.length →
      exec_with_range env s t t (some (.Insert bl)) flags =
        .ok { s with buffer := s.buffer.replace_iter t t (bl ++ env.input) } [] ∧
      exec_with_range env s t t (some (.Append bl)) flags =
        .ok { s with buffer := s.buffer.replace_iter t t (bl ++ env.input) } []) := by
  refine ⟨fun hlt => ⟨?_, ?_⟩, fun hle hfs => ?_, fun hle => ?_, fun heq => ?_⟩
  · have h1 : ¬ t + 1 < s.buffer.lines.length := by omega
    have h2 : ¬ t ≤ s.buffer.lines.length := by omega
    simp [exec_with_range, is_line, is_valid, buffer_insert, replace_checked, h1, h2]
  · have h1 : ¬ t + 1 < s.buffer.lines.length := by omega
    have h2 : ¬ t ≤ s.buffer.lines.length := by omega
    simp [exec_with_range, is_line, is_valid, buffer_insert, replace_checked, h1, h2]
  · have h1 : ¬ t + 1 ≤ s.buffer.lines.length := by omega
    simp [exec_with_range, is_line, is_valid, buffer_insert, replace_checked,
      read_to_buffer, hfs, h1]
  · have h1 : ¬ t < s.buffer.lines.length := by omega
    by_cases hf : f < s.buffer.lines.length
    · simp [exec_with_range, is_valid, hf, h1]
    · simp [exec_with_range, is_valid, hf]
  · subst heq
    have h1 : ¬ s.buffer.lines.length + 1 < s.buffer.lines.length := by omega
    simp [exec_with_range, is_line, is_valid, buffer_insert, replace_checked, h1]

/-- Witness for C5 (amended): on a two-line buffer, Insert at `(3,3)`
panics while Delete on the non-degenerate range `(0,5)` reports
`invalidAddress`. -/
theorem range_check_per_command_witness :
    exec_with_range env0 (mkState [['a'], ['b']] 0 false) 3 3
      (some (.Insert [])) .None = .panic ∧
    exec_with_range env0 (mkState [['a'], ['b']] 0 false) 0 5
      (some .Delete) .None = .err .invalidAddress (mkState [['a'], ['b']] 0 false) :=
  ⟨((range_check_per_command env0 (mkState [['a'], ['b']] 0 false) 3 3 0 [] .None []).1
      (by decide)).1,
   ((range_check_per_command env0 (mkState [['a'], ['b']] 0 false) 0 5 0 [] .None []).2.2.1
      (by decide)).1⟩

/-- Claim C8: with the changed flag set, Edit and Quit fail with the
"file modified" warning and clear the flag as a one-shot override, so the
immediately repeated attempt succeeds although nothing was saved; with the
flag clear, Edit replaces the whole state with freshly loaded content
(fresh buffer from the file, no marks, changed clear, search state reset,
prompt/verbose preserved) and Quit exits with status 0. -/
theorem edit_quit_modified_guard (env : Env) (s : State) (fo : Option Line)
    (content : List Char) (f t : Nat) (flags : PrintFlag)
    (hfs : env.fs (fo.getD s.file) = some content) :
    (s.buffer.changed = true →
      exec_with_range env s f t (some (.Edit fo)) flags =
        .err .modified { s with buffer := { s.buffer with changed := false } } ∧
      exec_with_range env s f t (some .Quit) flags =
        .err .modified { s with buffer := { s.buffer with changed := false } } ∧
      exec_with_range env { s with buffer := { s.buffer with changed := false } } f t
          (some (.Edit fo)) flags =
        .ok { buffer := Buffer.fromIter (readLines content), file := fo.getD s.file,
              lastPos := none, lastRe := none, prompt := s.prompt,
              verbose := s.verbose } [] ∧
      exec_with_range env { s with buffer := { s.buffer with changed := false } } f t
          (some .Quit) flags = .exited 0) ∧
    (s.buffer.changed = false →
      exec_with_range env s f t (some (.Edit fo)) flags =
        .ok { buffer := Buffer.fromIter (readLines content), file := fo.getD s.file,
              lastPos := none, lastRe := none, prompt := s.prompt,
              verbose := s.verbose } [] ∧
      exec_with_range env s f t (some .Quit) flags = .exited 0) := by
  constructor
  · intro hch
    refine ⟨?_, ?_, ?_, ?_⟩
    · simp [exec_with_range, hch]
    · simp [exec_with_range, hch]
    · cases fo with
      | none => simp_all [exec_with_range, read_file, read_to_buffer]
      | some f2 => simp_all [exec_with_range, read_file, read_to_buffer]
    · simp [exec_with_range]
  · intro hch
    constructor
    · cases fo with
      | none => simp_all [exec_with_range, read_file, read_to_buffer]
      | some f2 => simp_all [exec_with_range, read_file, read_to_buffer]
    · simp [exec_with_range, hch]

/-- Witness for C8: a modified one-line buffer refuses the first Edit and
clears the flag; Quit on the cleared state exits with status 0. -/
theorem edit_quit_modified_guard_witness :
    exec_with_range { env0 with fs := fun _ => some ['x', '\n'] }
      (mkState [['a']] 0 true) 0 0 (some (.Edit (some ['g']))) .None =
      .err .modified (mkState [['a']] 0 false) ∧
    exec_with_range { env0 with fs := fun _ => some ['x', '\n'] }
      (mkState [['a']] 0 false) 0 0 (some .Quit) .None = .exited 0 :=
  ⟨((edit_quit_modified_guard { env0 with fs := fun _ => some ['x', '\n'] }
      (mkState [['a']] 0 true) (some ['g']) ['x', '\n'] 0 0 .None rfl).1 rfl).1,
   ((edit_quit_modified_guard { env0 with fs := fun _ => some ['x', '\n'] }
      (mkState [['a']] 0 false) (some ['g']) ['x', '\n'] 0 0 .None rfl).2 rfl).2⟩

/-- `chompCR` is the identity on a line that does not end in a carriage
return. -/
theorem chompCR_of_no_cr (l : List Char) (h : l.getLast? ≠ some '\r') :
    chompCR l = l := by
  simp [chompCR, h]

/-- The serialization fold of `Buffer.toString`, in flattened form. -/
theorem toString_foldl (ls : List Line) (acc : List Char) :
    ls.foldl (fun e l => e ++ l ++ ['\n']) acc =
      acc ++ (ls.map (fun l => l ++ ['\n'])).flatten := by
  induction ls generalizing acc with
  | nil => simp
  | cons l t ih =>
    rw [List.foldl_cons, ih]
    simp [List.append_assoc]

/-- `readLines` on a nonempty content is the accumulator run. -/
theorem readLines_eq_aux (cs : List Char) (h : cs ≠ []) :
    readLines cs = readLinesAux cs [] := by
  cases cs with
  | nil => exact absurd rfl h
  | cons c r => rfl

/-- Running the line splitter through a newline-free chunk followed by a
newline yields that chunk (CR-chomped, appended to the pending
accumulator) and continues after the newline. -/
theorem readLinesAux_through (l : List Char) :
    ∀ (rest cur : List Char), ('\n' : Char) ∉ l →
      readLinesAux (l ++ '\n' :: rest) cur =
        chompCR (cur.reverse ++ l) ::
          (if rest.isEmpty then [] else readLinesAux rest []) := by
  induction l with
  | nil =>
    intro rest cur _
    simp [readLinesAux]
  | cons c cl ih =>
    intro rest cur hl
    have hc : c ≠ '\n' := by
      intro h
      exact hl (by simp [h])
    have hcl : ('\n' : Char) ∉ cl := by
      intro h
      exact hl (by simp [h])
    show readLinesAux (c :: (cl ++ '\n' :: rest)) cur = _
    rw [show readLinesAux (c :: (cl ++ '\n' :: rest)) cur
        = readLinesAux (cl ++ '\n' :: rest) (c :: cur) by simp [readLinesAux, hc]]
    rw [ih rest (c :: cur) hcl]
    simp [List.append_assoc]

/-- Splitting the serialized form of newline-free, non-CR-terminated lines
recovers exactly those lines. -/
theorem readLines_serialize (ls : List Line) :
    (∀ l ∈ ls, ('\n' : Char) ∉ l) → (∀ l ∈ ls, l.getLast? ≠ some '\r') →
    readLines ((ls.map (fun l => l ++ ['\n'])).flatten) = ls := by
  induction ls with
  | nil =>
    intro _ _
    simp [readLines]
  | cons l t ih =>
    intro hnl hcr
    have h1 : ('\n' : Char) ∉ l := hnl l (by simp)
    have h2 : l.getLast? ≠ some '\r' := hcr l (by simp)
    have hjoin : ((l :: t).map (fun x => x ++ ['\n'])).flatten =
        l ++ '\n' :: ((t.map (fun x => x ++ ['\n'])).flatten) := by
      simp
    rw [hjoin]
    have hne : l ++ '\n' :: ((t.map (fun x => x ++ ['\n'])).flatten) ≠ [] := by
      cases l <;> simp
    rw [readLines_eq_aux _ hne, readLinesAux_through l _ [] h1]
    simp only [List.reverse_nil, List.nil_append]
    rw [chompCR_of_no_cr _ h2]
    congr 1
    by_cases hJ : (t.map (fun x => x ++ ['\n'])).flatten = []
    · have ht : t = [] := by
        cases t with
        | nil => rfl
        | cons x xs => simp at hJ
      subst ht
      simp
    · rw [if_neg (by simpa [List.isEmpty_iff] using hJ)]
      rw [← readLines_eq_aux _ hJ]
      exact ih (fun x hx => hnl x (by simp [hx])) (fun x hx => hcr x (by simp [hx]))

/-- Counterexample to claim C9 as stated: the single-line buffer `a\r`
contains no line terminator (`\n`), yet writing it (`a\r\n`) and reading
it back yields `a` — `BufRead::lines` strips the CRLF ending. -/
theorem roundtrip_carriage_return_counterexample :
    ('\n' : Char) ∉ [('a' : Char), '\r'] ∧
    readLines (Buffer.fromIter [[('a' : Char), '\r']]).toString = [[('a' : Char)]] ∧
    [[('a' : Char)]] ≠ [[('a' : Char), '\r']] := by
  refine ⟨by decide, by decide, by decide⟩

/-- Claim C9 amended: for a buffer whose lines contain no `\n` and do not
end in `\r`, writing (each line plus a newline, in order) and reading back
produces identical line content, with the changed flag false and all 26
marks unset. -/
theorem write_read_roundtrip (b : Buffer)
    (hnl : ∀ l ∈ b.lines, ('\n' : Char) ∉ l)
    (hcr : ∀ l ∈ b.lines, l.getLast? ≠ some '\r') :
    readLines b.toString = b.lines ∧
    Buffer.fromIter (readLines b.toString) =
      { lines := b.lines, marks := List.replicate 26 none,
        changed := false, curline := 0 } := by
  have key : readLines b.toString = b.lines := by
    rw [Buffer.toString, toString_foldl, List.nil_append]
    exact readLines_serialize b.lines hnl hcr
  exact ⟨key, by rw [key]; rfl⟩

/-- Witness for C9 (amended) at a concrete two-line buffer. -/
theorem write_read_roundtrip_witness :
    readLines (Buffer.fromIter [[('a' : Char)], ['b', 'c']]).toString =
      [[('a' : Char)], ['b', 'c']] ∧
    Buffer.fromIter (readLines (Buffer.fromIter [[('a' : Char)], ['b', 'c']]).toString) =
      { lines := [[('a' : Char)], ['b', 'c']], marks := List.replicate 26 none,
        changed := false, curline := 0 } :=
  write_read_roundtrip (Buffer.fromIter [[('a' : Char)], ['b', 'c']])
    (by decide) (by decide)

/-- `find?` returns a satisfying element that is first: everything at an
earlier position fails the predicate. -/
theorem find?_first {α : Type} (p : α → Bool) (l : List α) (a : α)
    (h : l.find? p = some a) :
    p a = true ∧ ∃ d : Nat, l[d]? = some a ∧
      ∀ e : Nat, e < d → ∀ b, l[e]? = some b → p b = false := by
  induction l with
  | nil => simp [List.find?] at h
  | cons x xs ih =>
    by_cases hx : p x = true
    · rw [List.find?_cons_of_pos xs hx] at h
      cases h
      refine ⟨hx, 0, by simp, ?_⟩
      intro e he b hb
      exact absurd he (Nat.not_lt_zero e)
    · rw [List.find?_cons_of_neg xs hx] at h
      obtain ⟨hpa, d, hd, hmin⟩ := ih h
      refine ⟨hpa, d + 1, by simpa using hd, ?_⟩
      intro e he b hb
      cases e with
      | zero =>
        simp only [List.getElem?_cons_zero, Option.some.injEq] at hb
        rw [← hb]
        exact Bool.not_eq_true _ ▸ eq_false_of_ne_true hx
      | succ e2 =>
        exact hmin e2 (by omega) b (by simpa using hb)

/-- `find?` succeeds when some position holds a satisfying element. -/
theorem find?_isSome_of_getElem {α : Type} (p : α → Bool) (l : List α)
    (d : Nat) (a : α) (hd : l[d]? = some a) (hp : p a = true) :
    (l.find? p).isSome := by
  rw [List.find?_isSome]
  exact ⟨a, List.getElem?_mem hd, hp⟩

/-- The circular distance is at least 1 when the start is in range. -/
theorem cdist_pos (len i j : Nat) (hi : i < len) : 1 ≤ cdist len i j := by
  simp only [cdist]
  split <;> omega

/-- The forward scan of a buffer of `len` lines from a valid start has
exactly `len` entries — the "at most `length` comparisons" bound. -/
theorem scanForward_length (L : List Line) (i : Nat) (hi : i < L.length) :
    (scanForward L i).length = L.length := by
  simp only [scanForward, List.length_append, List.length_drop, List.length_take,
    List.enum_length]
  omega

/-- Entry `d` of the forward scan is the buffer entry at circular distance
`d + 1` from the start. -/
theorem scanForward_getElem (L : List Line) (i d : Nat) (hi : i < L.length)
    (hd : d < L.length) :
    ∃ j x, j < L.length ∧ cdist L.length i j = d + 1 ∧
      (scanForward L i)[d]? = some (j, x) ∧ L[j]? = some x := by
  by_cases hcase : d < L.length - (i + 1)
  · have hb : i + 1 + d < L.length := by omega
    have hx : L[i + 1 + d]? = some (L.getD (i + 1 + d) []) := by
      rw [List.getD_eq_getElem?_getD, List.getElem?_eq_getElem hb]
      rfl
    refine ⟨i + 1 + d, L.getD (i + 1 + d) [], by omega, ?_, ?_, hx⟩
    · simp only [cdist]
      rw [if_pos (show i < i + 1 + d by omega)]
      omega
    · rw [scanForward, List.getElem?_append_left
        (by simp only [List.length_drop, List.enum_length]; omega)]
      rw [List.getElem?_drop, List.getElem?_enum, hx]
      rfl
  · have hb : d - (L.length - (i + 1)) < L.length := by omega
    have hx : L[d - (L.length - (i + 1))]? =
        some (L.getD (d - (L.length - (i + 1))) []) := by
      rw [List.getD_eq_getElem?_getD, List.getElem?_eq_getElem hb]
      rfl
    refine ⟨d - (L.length - (i + 1)), L.getD (d - (L.length - (i + 1))) [],
      by omega, ?_, ?_, hx⟩
    · simp only [cdist]
      rw [if_neg (show ¬ i < d - (L.length - (i + 1)) by omega)]
      omega
    · rw [scanForward, List.getElem?_append_right
        (by simp only [List.length_drop, List.enum_length]; omega)]
      rw [List.length_drop, List.enum_length,
        List.getElem?_take_of_lt (by omega), List.getElem?_enum, hx]
      rfl

/-- Conversely, buffer index `j` appears in the forward scan at position
`cdist - 1`. -/
theorem scanForward_getElem_of_idx (L : List Line) (i j : Nat)
    (hi : i < L.length) (hj : j < L.length) :
    (scanForward L i)[cdist L.length i j - 1]? = some (j, L.getD j []) := by
  have hLj : L[j]? = some (L.getD j []) := by
    rw [List.getD_eq_getElem?_getD, List.getElem?_eq_getElem hj]
    rfl
  by_cases hij : i < j
  · have hc : cdist L.length i j - 1 = j - i - 1 := by simp [cdist, hij]
    rw [hc, scanForward, List.getElem?_append_left
      (by simp only [List.length_drop, List.enum_length]; omega)]
    rw [List.getElem?_drop, List.getElem?_enum,
      show i + 1 + (j - i - 1) = j by omega, hLj]
    rfl
  · have hc : cdist L.length i j - 1 = j + L.length - i - 1 := by simp [cdist, hij]
    rw [hc, scanForward, List.getElem?_append_right
      (by simp only [List.length_drop, List.enum_length]; omega)]
    rw [List.length_drop, List.enum_length,
      show j + L.length - i - 1 - (L.length - (i + 1)) = j by omega,
      List.getElem?_take_of_lt (by omega), List.getElem?_enum, hLj]
    rfl

/-- Claim C4: with a compilable pattern that matches at least one line of a
nonempty buffer, forward `find_regex` scans a list of exactly `length`
entries (`current+1 .. length-1` then `0 .. current`), returns the
circularly closest matching line strictly after the current line as the
degenerate range `(j, j)`, stores the pattern, and updates the stored
search position to `j`. -/
theorem find_regex_forward_spec (env : Env) (s : State) (re : Line)
    (r : Line → Bool) (hc : env.compile re = some r)
    (hi : s.buffer.curline < s.buffer.lines.length)
    (j0 : Nat) (hj0 : j0 < s.buffer.lines.length)
    (hm : r (s.buffer.lines.getD j0 []) = true) :
    (scanForward s.buffer.lines s.buffer.curline).length = s.buffer.lines.length ∧
    ∃ j, j < s.buffer.lines.length ∧ r (s.buffer.lines.getD j []) = true ∧
      (∀ j2, j2 < s.buffer.lines.length → r (s.buffer.lines.getD j2 []) = true →
        cdist s.buffer.lines.length s.buffer.curline j ≤
          cdist s.buffer.lines.length s.buffer.curline j2) ∧
      find_regex env s (some re) true =
        ({ s with lastRe := some re, lastPos := some j }, .ok (j, j)) := by
  refine ⟨scanForward_length _ _ hi, ?_⟩
  have hsome : ((scanForward s.buffer.lines s.buffer.curline).find?
      (fun p => r p.2)).isSome := by
    exact find?_isSome_of_getElem _ _ _ _
      (scanForward_getElem_of_idx s.buffer.lines s.buffer.curline j0 hi hj0)
      (by simpa using hm)
  obtain ⟨a, ha⟩ := Option.isSome_iff_exists.mp hsome
  obtain ⟨hpa, d, hd, hmin⟩ := find?_first _ _ _ ha
  have hdlen : d < s.buffer.lines.length := by
    have hlt := (List.getElem?_eq_some.mp hd).1
    rw [scanForward_length _ _ hi] at hlt
    exact hlt
  obtain ⟨j, x, hjlen, hcd, hscan, hLx⟩ :=
    scanForward_getElem s.buffer.lines s.buffer.curline d hi hdlen
  rw [hscan] at hd
  have hax : a = (j, x) := by
    cases hd
    rfl
  subst hax
  have hgd : s.buffer.lines.getD j [] = x := by
    rw [List.getD_eq_getElem?_getD, hLx]
    rfl
  have hrj : r (s.buffer.lines.getD j []) = true := by
    rw [hgd]
    simpa using hpa
  refine ⟨j, hjlen, hrj, ?_, ?_⟩
  · intro j2 hj2 hr2
    by_contra hlt
    push_neg at hlt
    have h1 := cdist_pos s.buffer.lines.length s.buffer.curline j2 hi
    have hd2 : cdist s.buffer.lines.length s.buffer.curline j2 - 1 < d := by omega
    have := hmin _ hd2 _
      (scanForward_getElem_of_idx s.buffer.lines s.buffer.curline j2 hi hj2)
    simp only at this
    rw [hr2] at this
    cases this
  · have hfind : ((scanForward s.buffer.lines s.buffer.curline).find?
        (fun p => r p.2)) = some (j, x) := ha
    simp only [find_regex, hc, hfind, if_true]

/-- Witness for C4: a one-line buffer whose single line matches an
always-true pattern; the match is found at index 0 by wraparound. -/
theorem find_regex_forward_spec_witness :
    (scanForward (mkState [['x']] 0 false).buffer.lines
      (mkState [['x']] 0 false).buffer.curline).length =
        (mkState [['x']] 0 false).buffer.lines.length ∧
    ∃ j, j < (mkState [['x']] 0 false).buffer.lines.length ∧
      (fun (_ : Line) => true) ((mkState [['x']] 0 false).buffer.lines.getD j []) = true ∧
      (∀ j2, j2 < (mkState [['x']] 0 false).buffer.lines.length →
        (fun (_ : Line) => true) ((mkState [['x']] 0 false).buffer.lines.getD j2 []) = true →
        cdist (mkState [['x']] 0 false).buffer.lines.length
            (mkState [['x']] 0 false).buffer.curline j ≤
          cdist (mkState [['x']] 0 false).buffer.lines.length
            (mkState [['x']] 0 false).buffer.curline j2) ∧
      find_regex { env0 with compile := fun _ => some (fun _ => true) }
          (mkState [['x']] 0 false) (some ['p']) true =
        ({ mkState [['x']] 0 false with lastRe := some ['p'], lastPos := some j },
          .ok (j, j)) :=
  find_regex_forward_spec { env0 with compile := fun _ => some (fun _ => true) }
    (mkState [['x']] 0 false) ['p'] (fun _ => true) rfl (by decide) 0 (by decide) rfl

end Red
